import Mathlib

/-!
Shallow embedding of the singly linked list container from
src/single-linked-list/single-linked-list.h.

A list state is abstracted by the sequence of values stored in the real
(non-sentinel) nodes, in chain order starting from the sentinel's next
link, together with the stored element counter `size_`.  The counter is
kept as a separate field because the source code updates it independently
of the chain (and, in two places, fails to update it).

Iterators hold a raw node pointer in the source; relative to a fixed list
state a node pointer is either the sentinel (`before_begin`), the i-th
real node, or the null pointer (`end`).  Operations whose source performs
a null-pointer dereference (undefined behavior) return `none`.
-/

namespace SinglyLinkedList

/-- Abstract state of a `SingleLinkedList<Type>`: the values held by the
real nodes reachable from the sentinel, in chain order, and the stored
counter field `size_`. -/
structure SLL (α : Type) where
  nodes : List α
  size_ : Nat
deriving DecidableEq, Repr

/-- An iterator value relative to a list state: the sentinel node address
(`before_begin`), the address of the i-th real node, or the null pointer
(`end`). -/
inductive Iter where
  | sentinel : Iter
  | node : Nat → Iter
  | past : Iter
deriving DecidableEq, Repr

variable {α : Type}

/-- `GetSize`: returns the stored counter `size_`. -/
def GetSize (s : SLL α) : Nat := s.size_

/-- `IsEmpty`: source returns `size_ == 0 ? true : false`. -/
def IsEmpty (s : SLL α) : Bool := s.size_ == 0

/-- `PushFront`: `head_.next_node = new Node(value, head_.next_node); ++size_;`. -/
def PushFront (s : SLL α) (v : α) : SLL α :=
  ⟨v :: s.nodes, s.size_ + 1⟩

/-- `PopFront`: if `head_.next_node != nullptr`, relink `head_.next_node`
to the second node (or null) and delete the first node.  The source never
touches `size_` here. -/
def PopFront (s : SLL α) : SLL α :=
  match s.nodes with
  | [] => s
  | _ :: rest => ⟨rest, s.size_⟩

/-- `Clear`: deletes every node in chain order, then sets
`head_.next_node = nullptr` and `size_ = 0`. -/
def Clear (_s : SLL α) : SLL α := ⟨[], 0⟩

/-- `begin()`: `Iterator{head_.next_node}` — the first real node, or the
null pointer when the chain is empty. -/
def beginIter (s : SLL α) : Iter :=
  match s.nodes with
  | [] => .past
  | _ :: _ => .node 0

/-- `end()`: `Iterator{nullptr}`. -/
def endIter : Iter := .past

/-- `before_begin()`: `Iterator{&head_}` — the sentinel node. -/
def beforeBegin : Iter := .sentinel

/-- `BasicIterator::operator++` (prefix form): `if (node_ != nullptr) node_ = node_->next_node;`.
At the sentinel the successor is the first real node (or null); at the
i-th real node it is node i+1 (or null); at null it is a no-op. -/
def iterInc (s : SLL α) : Iter → Iter
  | .sentinel =>
    match s.nodes with
    | [] => .past
    | _ :: _ => .node 0
  | .node i => if i + 1 < s.nodes.length then .node (i + 1) else .past
  | .past => .past

/-- `BasicIterator::operator++(int)` (postfix form): saves the old value,
applies the prefix increment, returns the old value.  The pair is
(returned value, iterator after the call). -/
def iterPostInc (s : SLL α) (p : Iter) : Iter × Iter :=
  (p, iterInc s p)

/-- `BasicIterator::operator*`: `node_->value`.  Undefined (none) at the
null pointer; the sentinel's value member is meaningless, so dereferencing
`before_begin` is modelled as none as well. -/
def iterDeref (s : SLL α) : Iter → Option α
  | .sentinel => none
  | .node i => s.nodes.get? i
  | .past => none

/-- `InsertAfter(pos, value)`: `new Node(value, pos.node_->next_node);
pos.node_->next_node = new_node; ++size_; return Iterator{new_node};`.
Dereferencing a null `pos.node_` (pos = end) or a dangling node index is
undefined behavior, modelled as none. -/
def InsertAfter (s : SLL α) (pos : Iter) (v : α) : Option (SLL α × Iter) :=
  match pos with
  | .past => none
  | .sentinel => some (⟨v :: s.nodes, s.size_ + 1⟩, .node 0)
  | .node i =>
    if i < s.nodes.length then
      some (⟨s.nodes.take (i + 1) ++ v :: s.nodes.drop (i + 1), s.size_ + 1⟩, .node (i + 1))
    else none

/-- `EraseAfter(pos)`: `node_for_del = pos.node_->next_node;
pos.node_->next_node = pos.node_->next_node->next_node; delete node_for_del;
return Iterator{pos.node_->next_node};`.  Undefined (none) when `pos.node_`
is null or when `pos` has no real successor (the second dereference reads
through a null `next_node`).  The source never touches `size_` here. -/
def EraseAfter (s : SLL α) (pos : Iter) : Option (SLL α × Iter) :=
  match pos with
  | .past => none
  | .sentinel =>
    match s.nodes with
    | [] => none
    | _ :: rest => some (⟨rest, s.size_⟩, if rest.isEmpty then .past else .node 0)
  | .node i =>
    if i + 1 < s.nodes.length then
      some (⟨s.nodes.eraseIdx (i + 1), s.size_⟩,
            if i + 2 < s.nodes.length then .node (i + 1) else .past)
    else none

/-- The `std::initializer_list` constructor: default-initialises the
members (empty chain, counter 0), calls `Clear()`, then walks the source
sequence in reverse calling `PushFront` on each value. -/
def fromListCtor (vs : List α) : SLL α :=
  vs.reverse.foldl (fun s v => PushFront s v) (Clear ⟨[], 0⟩)

/-- The copy constructor: builds a deep clone of the chain into a
temporary (copying `other.size_` into it only in the non-empty branch;
the empty branch swaps in a default-constructed temporary) and swaps it
into `this`. -/
def copyCtor (s : SLL α) : SLL α :=
  match s.nodes with
  | [] => ⟨[], 0⟩
  | _ :: _ => ⟨s.nodes, s.size_⟩

/-- Copy assignment `lhs = rhs`: a self-assignment is a no-op; otherwise
a copy of `rhs` is built with the copy constructor and swapped into `lhs`. -/
def opAssign (lhs rhs : SLL α) (selfAssign : Bool) : SLL α :=
  if selfAssign then lhs else copyCtor rhs

/-- The loop of three-argument `std::equal(first1, last1, first2)` as
instantiated by `operator==`: while `first1 != last1`, dereference both
iterators and compare.  When the second range is exhausted before the
first, the dereference of `first2` reads through a null pointer:
undefined behavior, modelled as none. -/
def stdEqual [DecidableEq α] : List α → List α → Option Bool
  | [], _ => some true
  | _ :: _, [] => none
  | a :: as, b :: bs => if a = b then stdEqual as bs else some false

/-- `operator==(lhs, rhs)`: `std::equal(lhs.begin(), lhs.end(), rhs.begin())`. -/
def opEq [DecidableEq α] (lhs rhs : SLL α) : Option Bool :=
  stdEqual lhs.nodes rhs.nodes

/-- The loop of `std::lexicographical_compare(first1, last1, first2, last2)`:
while both ranges are non-empty, `*first1 < *first2` decides true,
`*first2 < *first1` decides false, otherwise advance both; at the end the
result is `first1 == last1 && first2 != last2`. -/
def lexiCompare [LinearOrder α] : List α → List α → Bool
  | _, [] => false
  | [], _ :: _ => true
  | a :: as, b :: bs => if a < b then true else if b < a then false else lexiCompare as bs

/-- `operator<(lhs, rhs)`:
`std::lexicographical_compare(lhs.begin(), lhs.end(), rhs.begin(), rhs.end())`. -/
def opLt [LinearOrder α] (lhs rhs : SLL α) : Bool :=
  lexiCompare lhs.nodes rhs.nodes

/-- `operator<=(lhs, rhs)`: the source returns `!(lhs < rhs)`. -/
def opLe [LinearOrder α] (lhs rhs : SLL α) : Bool := !(opLt lhs rhs)

/-- `operator>(lhs, rhs)`: the source returns `!(lhs < rhs)`. -/
def opGt [LinearOrder α] (lhs rhs : SLL α) : Bool := !(opLt lhs rhs)

/-- `operator>=(lhs, rhs)`: the source returns `!(lhs < rhs)`. -/
def opGe [LinearOrder α] (lhs rhs : SLL α) : Bool := !(opLt lhs rhs)

/-- States reachable from construction by the public operations.
`swap` exchanges the whole abstract states of two lists, so it produces
no state that was not already reachable and needs no rule of its own;
copy assignment leaves the target equal to either itself (self-assignment)
or a copy of the right-hand side. -/
inductive Reachable : SLL Int → Prop where
  | defaultCtor : Reachable ⟨[], 0⟩
  | seqCtor (vs : List Int) : Reachable (fromListCtor vs)
  | push (s : SLL Int) (v : Int) : Reachable s → Reachable (PushFront s v)
  | pop (s : SLL Int) : Reachable s → Reachable (PopFront s)
  | insert (s : SLL Int) (pos : Iter) (v : Int) (t : SLL Int) (it : Iter) :
      Reachable s → InsertAfter s pos v = some (t, it) → Reachable t
  | erase (s : SLL Int) (pos : Iter) (t : SLL Int) (it : Iter) :
      Reachable s → EraseAfter s pos = some (t, it) → Reachable t
  | clear (s : SLL Int) : Reachable s → Reachable (Clear s)
  | copy (s : SLL Int) : Reachable s → Reachable (copyCtor s)
  | assign (s rhs : SLL Int) (b : Bool) :
      Reachable s → Reachable rhs → Reachable (opAssign s rhs b)

end SinglyLinkedList

namespace SinglyLinkedList

/-! ### Helper lemmas -/

theorem foldl_pushFront {α : Type} (l : List α) (s : SLL α) :
    l.foldl (fun t v => PushFront t v) s = ⟨l.reverse ++ s.nodes, s.size_ + l.length⟩ := by
  induction l generalizing s with
  | nil => cases s; simp
  | cons a l ih =>
    rw [List.foldl_cons, ih]
    simp [PushFront, List.reverse_cons]
    omega

theorem lexiCompare_iff_lex {α : Type} [LinearOrder α] (l₁ l₂ : List α) :
    lexiCompare l₁ l₂ = true ↔ List.Lex (· < ·) l₁ l₂ := by
  induction l₁ generalizing l₂ with
  | nil =>
    cases l₂ with
    | nil => simp [lexiCompare]
    | cons b bs =>
      simp only [lexiCompare, true_iff]
      exact List.Lex.nil
  | cons a as ih =>
    cases l₂ with
    | nil =>
      simp only [lexiCompare, Bool.false_eq_true, false_iff]
      exact List.Lex.not_nil_right _ _
    | cons b bs =>
      rcases lt_trichotomy a b with hab | hab | hab
      · simp only [lexiCompare, if_pos hab, true_iff]
        exact List.Lex.rel hab
      · subst hab
        simp only [lexiCompare, if_neg (lt_irrefl a)]
        rw [ih]
        exact (List.Lex.cons_iff).symm
      · simp only [lexiCompare, if_neg (asymm hab), if_pos hab, Bool.false_eq_true, false_iff]
        intro h
        cases h with
        | cons h2 => exact absurd hab (lt_irrefl a)
        | rel h3 => exact absurd h3 (asymm hab)

end SinglyLinkedList

namespace SinglyLinkedList

/-! ### Claim theorems -/

/-- C1: PopFront removes the first element of a non-empty list and is a
no-op on an empty list, but the source never decrements `size_`, so on
the one-element list `[5]` (counter 1) the element is removed while
GetSize still reports 1 instead of 0: the "count decreases by exactly 1"
part of the claim fails on the code. -/
theorem popFront_leaves_counter_unchanged :
    PopFront (⟨[5], 1⟩ : SLL Int) = ⟨[], 1⟩ ∧
    GetSize (PopFront (⟨[5], 1⟩ : SLL Int)) = GetSize (⟨[5], 1⟩ : SLL Int) ∧
    PopFront (⟨[], 0⟩ : SLL Int) = ⟨[], 0⟩ := by
  exact ⟨rfl, rfl, rfl⟩

/-- C2: EraseAfter at before_begin on the list `[10, 20]` (counter 2)
removes the node after the sentinel and returns an iterator to the node
now after it, but the source never decrements `size_`, so the resulting
state still carries counter 2 instead of 1: the "decreases the element
count by 1" part of the claim fails on the code. -/
theorem eraseAfter_leaves_counter_unchanged :
    EraseAfter (⟨[10, 20], 2⟩ : SLL Int) beforeBegin = some (⟨[20], 2⟩, .node 0) ∧
    GetSize (⟨[20], 2⟩ : SLL Int) = GetSize (⟨[10, 20], 2⟩ : SLL Int) := by
  exact ⟨rfl, rfl⟩

/-- C3: operator== is three-argument std::equal, which only walks the
left range: the lists `[1]` and `[1, 2]` have different lengths yet
compare equal, and comparing `[1, 2]` with the shorter `[1]` dereferences
the null pointer past the right range (undefined behavior, modelled as
none); the claim that lists of different lengths are never equal fails on
the code. -/
theorem opEq_accepts_shorter_left_list :
    opEq (⟨[1], 1⟩ : SLL Int) ⟨[1, 2], 2⟩ = some true ∧
    (⟨[1], 1⟩ : SLL Int).nodes.length ≠ (⟨[1, 2], 2⟩ : SLL Int).nodes.length ∧
    opEq (⟨[1, 2], 2⟩ : SLL Int) ⟨[1], 1⟩ = none := by
  refine ⟨rfl, by decide, rfl⟩

/-- C4: the state reached from the default constructor by PushFront 5
then PopFront is `⟨[], 1⟩`: it has zero real nodes but GetSize reports 1,
and IsEmpty is false although no node remains, so the claimed invariant
fails on a reachable state (PopFront deletes the node without decrementing
`size_`). -/
theorem reachable_state_violates_size_invariant :
    Reachable (⟨[], 1⟩ : SLL Int) ∧
    GetSize (⟨[], 1⟩ : SLL Int) ≠ (⟨[], 1⟩ : SLL Int).nodes.length ∧
    IsEmpty (⟨[], 1⟩ : SLL Int) = false := by
  refine ⟨?_, by decide, rfl⟩
  exact Reachable.pop _ (Reachable.push _ 5 Reachable.defaultCtor)

/-- C5: operator< agrees with the standard lexicographic strict order on
the element sequences (List.Lex of the value order): less at the first
position where the left element is less, a proper initial segment is
less, and not less otherwise; in particular [1,2] < [1,2,3],
[1,2,3] < [1,3], and the empty list is less than any non-empty list. -/
theorem opLt_is_standard_lexicographic :
    (∀ lhs rhs : SLL Int, opLt lhs rhs = true ↔ List.Lex (· < ·) lhs.nodes rhs.nodes) ∧
    opLt (⟨[1, 2], 2⟩ : SLL Int) ⟨[1, 2, 3], 3⟩ = true ∧
    opLt (⟨[1, 2, 3], 3⟩ : SLL Int) ⟨[1, 3], 2⟩ = true ∧
    (∀ (m n : Nat) (x : Int) (xs : List Int), opLt ⟨[], m⟩ ⟨x :: xs, n⟩ = true) := by
  exact ⟨fun lhs rhs => lexiCompare_iff_lex _ _, by decide, by decide, fun _ _ _ _ => rfl⟩

/-- C6: the derived orderings are each literally the negation of
operator< with the operands in the same order, and consequently
operator> disagrees with the swapped operator<: on two equal singleton
lists `lhs > rhs` is true while `rhs < lhs` is false. -/
theorem derived_orderings_are_not_lt :
    (∀ lhs rhs : SLL Int, opLe lhs rhs = !(opLt lhs rhs)) ∧
    (∀ lhs rhs : SLL Int, opGt lhs rhs = !(opLt lhs rhs)) ∧
    (∀ lhs rhs : SLL Int, opGe lhs rhs = !(opLt lhs rhs)) ∧
    opGt (⟨[1], 1⟩ : SLL Int) ⟨[1], 1⟩ = true ∧
    opLt (⟨[1], 1⟩ : SLL Int) ⟨[1], 1⟩ = false := by
  exact ⟨fun _ _ => rfl, fun _ _ => rfl, fun _ _ => rfl, by decide, by decide⟩

/-- C7: inserting after before_begin is exactly PushFront: the resulting
state (element sequence and counter) is the state PushFront produces, and
the returned iterator is the first node, which dereferences to the newly
inserted value. -/
theorem insertAfter_beforeBegin_is_pushFront (s : SLL Int) (v : Int) :
    InsertAfter s beforeBegin v = some (PushFront s v, .node 0) ∧
    iterDeref (PushFront s v) (.node 0) = some v := by
  exact ⟨rfl, rfl⟩

/-- C8: the sequence constructor (reverse iteration with front insertion)
produces a list whose node sequence is exactly the input sequence in the
given order, with counter equal to its length. -/
theorem fromListCtor_preserves_order (vs : List Int) :
    (fromListCtor vs).nodes = vs ∧ (fromListCtor vs).size_ = vs.length := by
  rw [fromListCtor, foldl_pushFront]
  simp [Clear]

/-- C9: Clear on any list, the empty one included, leaves an empty chain
(sentinel next-link none) with counter 0, after which GetSize is 0 and
begin equals end; on the already-empty list it returns the same state. -/
theorem clear_resets_to_empty (s : SLL Int) :
    (Clear s).nodes = [] ∧ GetSize (Clear s) = 0 ∧ beginIter (Clear s) = endIter ∧
    Clear (⟨[], 0⟩ : SLL Int) = ⟨[], 0⟩ := by
  exact ⟨rfl, rfl, rfl, rfl⟩

/-- C10: the prefix increment guards on a null node pointer, so advancing
an iterator already equal to end() leaves it equal to end(), and the
postfix increment both returns end() and leaves the iterator at end():
advancement is a no-op at end rather than undefined behavior. -/
theorem iter_increment_noop_at_end (s : SLL Int) :
    iterInc s endIter = endIter ∧ iterPostInc s endIter = (endIter, endIter) := by
  exact ⟨rfl, rfl⟩

end SinglyLinkedList
